import Mathlib

/-!
Verification of the ccrec interactive recommendation environment
(src/ccrec/env/base.py) and the BPR negative-sampling protocol
(src/ccrec/models/bbpr.py), via a shallow embedding in Lean.
-/

namespace Ccrec

/-- Python max over a list of integers; the code only applies it to nonempty
collections (dict keys of a nonempty dict), so the value on [] is irrelevant. -/
def listMax : List Int → Int
  | [] => 0
  | x :: xs => xs.foldl max x

/-- Outcome of calling a Python function: a normal return or a raised exception. -/
inductive PyOutcome (α : Type) where
  | ret (v : α)
  | raised (excName : String) (msg : String)
deriving DecidableEq, Repr

/-- A Python object as relevant to Env._invoke: only exception objects appear. -/
inductive PyObj where
  | exc (excName : String) (msg : String)
deriving DecidableEq, Repr

/-- Embeds Env._invoke from src/ccrec/env/base.py, whose whole body is
the statement: return NotImplementedError("return request + multi_label column").
The body is a plain `return`, so the call completes normally with the
exception object as its return value. -/
def Env._invoke {Req Dat : Type} (request : Req) (D : Dat) (step_idx : Int) :
    PyOutcome PyObj :=
  PyOutcome.ret (PyObj.exc "NotImplementedError" "return request + multi_label column")

/-- The step-indexing state of an Env instance: the _start_step_idx field and
the keys of the _response dict (most recently inserted first). -/
structure EnvState where
  startStepIdx : Int
  responseKeys : List Int
deriving DecidableEq, Repr

/-- Embeds Env._get_step_idx: _start_step_idx if no responses are recorded,
else max(self._response.keys()) + 1. -/
def Env._get_step_idx (st : EnvState) : Int :=
  match st.responseKeys with
  | [] => st.startStepIdx
  | k :: ks => listMax (k :: ks) + 1

/-- Short synonym for Env._get_step_idx. -/
def getStepIdx (st : EnvState) : Int := Env._get_step_idx st

/-- The response-recording effect of one Env.step call: the computed step index
becomes the key of the newly stored response (self._response[step_idx] = response). -/
def stepRecord (st : EnvState) : EnvState :=
  { st with responseKeys := getStepIdx st :: st.responseKeys }

/-- N consecutive Env.step calls, tracking only the recorded response keys. -/
def runSteps (st : EnvState) : Nat → EnvState
  | 0 => st
  | n + 1 => runSteps (stepRecord st) n

/-- One interaction event row (USER_ID, ITEM_ID, TIMESTAMP, VALUE). -/
structure RawEvent where
  user : Nat
  item : Nat
  ts : ℚ
  value : ℚ
deriving DecidableEq, Repr

/-- TEST_START_TIME lookup: user_df.groupby(level=0).first() under a unique
index keeps the single row per user, and the join reads that value. -/
def lookupTST (user_df : List (Nat × ℚ)) (u : Nat) : Option ℚ :=
  (user_df.find? (fun p => p.1 == u)).map (fun p => p.2)

/-- Events whose USER_ID and ITEM_ID are both known (the isin filter). -/
def knownEvents (event_df : List RawEvent) (user_df : List (Nat × ℚ))
    (item_df : List Nat) : List RawEvent :=
  event_df.filter (fun e =>
    (user_df.map Prod.fst).contains e.user && item_df.contains e.item)

/-- past_event_df: known events with TIMESTAMP strictly before the user's
TEST_START_TIME (a join key with no match compares false, as in pandas). -/
def pastEvents (event_df : List RawEvent) (user_df : List (Nat × ℚ))
    (item_df : List Nat) : List RawEvent :=
  (knownEvents event_df user_df item_df).filter (fun e =>
    match lookupTST user_df e.user with
    | some t => decide (e.ts < t)
    | none => false)

/-- Embeds _sanitize_inputs from src/ccrec/env/base.py for a supplied event
table that already carries a VALUE column.  user_df is the list of
(USER_ID, TEST_START_TIME) rows, item_df the item index.  Returns the cleaned
event list and whether the future-event warning fired; the two assertions
surface as errors.  (The pandas max() of an empty TIMESTAMP column is NaN,
which fails the strict comparison, so an empty table also errors.) -/
def _sanitize_inputs (event_df : List RawEvent) (user_df : List (Nat × ℚ))
    (item_df : List Nat) (clear_future_events : Option Bool) (now : ℚ) :
    Except String (List RawEvent × Bool) :=
  if ¬ (user_df.map Prod.fst).Nodup then .error "require unique user ids"
  else if ¬ (event_df ≠ [] ∧ ∀ e ∈ event_df, e.ts < now) then
    .error "require TIMESTAMP < current request_time"
  else if (pastEvents event_df user_df item_df).length
      < (knownEvents event_df user_df item_df).length then
    match clear_future_events with
    | none => .ok (knownEvents event_df user_df item_df, true)
    | some true => .ok (pastEvents event_df user_df item_df, false)
    | some false => .ok (knownEvents event_df user_df item_df, false)
  else .ok (knownEvents event_df user_df item_df, false)

/-- An event row lacking the VALUE column. -/
structure RawEventNoValue where
  user : Nat
  item : Nat
  ts : ℚ
deriving DecidableEq, Repr

/-- _sanitize_inputs on an event table with no VALUE column: the code runs
event_df = event_df.assign(VALUE=1) and then proceeds unchanged. -/
def sanitizeNoValue (event_df : List RawEventNoValue) (user_df : List (Nat × ℚ))
    (item_df : List Nat) (clear_future_events : Option Bool) (now : ℚ) :
    Except String (List RawEvent × Bool) :=
  _sanitize_inputs (event_df.map (fun r => ⟨r.user, r.item, r.ts, 1⟩)) user_df item_df
    clear_future_events now

/-- The comparison underlying np.argsort(a, kind='stable'): index i precedes
index j when a[i] < a[j], or on ties when i comes first. -/
def idxLe (g : List Int) (i j : Nat) : Bool :=
  decide (g.getD i 0 < g.getD j 0) || (g.getD i 0 == g.getD j 0 && decide (i ≤ j))

/-- np.argsort(g, kind='stable'): the permutation of positions sorting g
ascending with ties kept in original order. -/
def argsortStable (g : List Int) : List Nat :=
  (List.range g.length).mergeSort (idxLe g)

/-- numpy fancy indexing arr[idx] (all code paths keep idx in range). -/
def takeIndex {α : Type} (l : List α) (d : α) (idx : List Nat) : List α :=
  idx.map (fun i => l.getD i d)

/-- One row of the request table as seen by _sort_or_shuffle: the three
parallel columns cand_items, _group and cand_titles. -/
structure ReqRow where
  cand_items : List Nat
  group : List Int
  cand_titles : List String
deriving DecidableEq, Repr

/-- Embeds _sort_or_shuffle from src/ccrec/env/base.py on one request row.
With _sort_candidates the reverse index is np.argsort (stable) of the group
tags with the -1 entries masked out; otherwise it is
np.random.permutation(len(group)), supplied here as the oracle perm.  All three
parallel columns are then indexed by that one reverse index. -/
def _sort_or_shuffle (_sort_candidates : Bool) (perm : List Nat) (r : ReqRow) : ReqRow :=
  let ridx := if _sort_candidates
    then argsortStable (r.group.filter (fun x => x != -1))
    else perm
  { cand_items := takeIndex r.cand_items 0 ridx
    group := takeIndex r.group 0 ridx
    cand_titles := takeIndex r.cand_titles "" ridx }

/-- np.unique on a 1-D integer array: the distinct values in ascending order. -/
def npUnique (l : List Int) : List Int :=
  (List.insertionSort (· ≤ ·) l).dedup

/-- data[group == t].sum() over the stacked 2-D arrays: the sum of label
entries at the positions whose group tag equals t, row by row. -/
def maskSum (data : List (List ℚ)) (group : List (List Int)) (t : Int) : ℚ :=
  ((data.zip group).map (fun rg =>
    (((rg.2.zip rg.1).filter (fun p => p.1 == t)).map (fun p => p.2)).sum)).sum

/-- (group == t).sum() over the stacked 2-D array: how many positions carry t. -/
def maskCount (group : List (List Int)) (t : Int) : Nat :=
  (group.map (fun gr => (gr.filter (fun x => x == t)).length)).sum

/-- Embeds _evaluate_response from src/ccrec/env/base.py: stack multi_label and
_group, then for every distinct tag report positives / impressions, keyed by
the string form of the tag. -/
def _evaluate_response (multi_label : List (List ℚ)) (group : List (List Int)) :
    List (String × ℚ) :=
  (npUnique group.flatten).map (fun t =>
    (toString t, maskSum multi_label group t / (maskCount group t : ℚ)))

/-- Spec-side reading: the sum of label entries at flattened positions whose
parallel flattened tag equals t. -/
def tagLabelSum (labels : List ℚ) (group : List Int) (t : Int) : ℚ :=
  (((group.zip labels).filter (fun p => p.1 == t)).map (fun p => p.2)).sum

/-- Spec-side reading: the count of flattened positions whose tag equals t. -/
def tagCount (group : List Int) (t : Int) : Nat :=
  ((group.filter (fun x => x == t)).length)

/-- One row of a scored response as consumed by parse_response. -/
structure RespRow where
  user : Nat
  request_time : ℚ
  cand_items : List Nat
  multi_label : List ℚ
  group : List Int
deriving DecidableEq, Repr

/-- One exploded event row produced by parse_response.  pandas explode turns an
empty list cell into a single NaN cell, so the positional fields are Options
with none standing for NaN. -/
structure NewEvent where
  item : Option Nat
  user : Nat
  ts : ℚ
  value : Option ℚ
  group : Option Int
  step : Int
deriving DecidableEq, Repr

/-- pandas Series.explode on one list cell: an empty list yields one NaN row. -/
def explodeCell {α : Type} (l : List α) : List (Option α) :=
  if l.isEmpty then [none] else l.map some

/-- The exploded event table before the time-unit fixup: ITEM_ID from exploding
cand_items, with USER_ID, TIMESTAMP and step_idx carried along from the source
row through the index; VALUE and _group by exploding their own columns and
realigning positionally (the .values assignments). -/
def parseEventsRaw (rows : List RespRow) (steps : List Int) : List NewEvent :=
  let base := (rows.zip steps).flatMap (fun rs =>
    (explodeCell rs.1.cand_items).map (fun it => (it, rs.1.user, rs.1.request_time, rs.2)))
  let valueCol := rows.flatMap (fun r => explodeCell r.multi_label)
  let groupCol := rows.flatMap (fun r => explodeCell r.group)
  (base.zip (valueCol.zip groupCol)).map (fun bvg =>
    ⟨bvg.1.1, bvg.1.2.1, bvg.1.2.2.1, bvg.2.1, bvg.2.2, bvg.1.2.2.2⟩)

/-- The TIMESTAMP / 1e3 fixup applied to one event row. -/
def scaleTs (e : NewEvent) : NewEvent := { e with ts := e.ts / 1000 }

/-- response['request_time'].rank(method='dense').values - 1 for one row: the
number of distinct request times strictly below this row's. -/
def denseRank0 (times : List ℚ) (v : ℚ) : Int :=
  ((times.dedup.filter (fun t => decide (t < v))).length : Int)

/-- Embeds parse_response from src/ccrec/env/base.py (infer_time_unit left at
its default True): per-row step indices come from the explicit step_idx or
from dense-ranking the request times; the columns are exploded and realigned;
and if any resulting timestamp exceeds the wall clock, every timestamp is
divided by 1e3. -/
def parse_response (rows : List RespRow) (step_idx : Option Int) (now : ℚ) :
    List NewEvent :=
  let steps := match step_idx with
    | some i => List.replicate rows.length i
    | none => rows.map (fun r =>
        denseRank0 (rows.map (fun q => q.request_time)) r.request_time)
  let events := parseEventsRaw rows steps
  if events.any (fun e => decide (now < e.ts)) then events.map scaleTs else events

/-- Spec-side reading of the explosion: exactly one event per (row, candidate)
pair, with VALUE and _group taken at the same position as the candidate and
TIMESTAMP shared from the row's request_time. -/
def eventsPerPair (rows : List RespRow) (i : Int) : List NewEvent :=
  rows.flatMap (fun r =>
    (r.cand_items.zip (r.multi_label.zip r.group)).map (fun p =>
      ⟨some p.1, r.user, r.request_time, some p.2.1, some p.2.2, i⟩))

/-- The negative-sampling hyperparameters of _BertBPR. -/
structure BprCfg where
  n_negatives : Nat
  valid_n_negatives : Nat
deriving DecidableEq, Repr

/-- n_negatives if self.training else valid_n_negatives. -/
def nNegativesFor (cfg : BprCfg) (training : Bool) : Nat :=
  if training then cfg.n_negatives else cfg.valid_n_negatives

/-- torch .T of a bsz-by-K index matrix, giving a K-by-bsz matrix. -/
def transposeMat (rows : List (List Nat)) (ncols : Nat) : List (List Nat) :=
  (List.range ncols).map (fun c => rows.map (fun row => row.getD c 0))

/-- torch .reshape of a flat index vector into K rows of length B (row-major). -/
def reshapeMat (flat : List Nat) (K B : Nat) : List (List Nat) :=
  (List.range K).map (fun r => (flat.drop (r * B)).take B)

/-- The documented contract of the external torch.multinomial(w, n, repl) on a
weight vector over numCat categories: it returns n draws, each the index of a
category. -/
def multinomialSpec (numCat n : Nat) (draws : List Nat) : Prop :=
  draws.length = n ∧ ∀ x ∈ draws, x < numCat

/-- Embeds the nj construction of _BertBPR.training_and_validation_step from
src/ccrec/models/bbpr.py: when tr_prior_score is present, one multinomial of
n_negatives draws per batch row over softmax(training_prior_fcn(prior_row) +
log tr_item_proposal), transposed to (n_negatives, bsz); otherwise one flat
multinomial of n_negatives*bsz draws over tr_item_proposal reshaped to
(n_negatives, bsz).  The random draws themselves are oracle inputs. -/
def sampleNegatives (cfg : BprCfg) (training : Bool) (hasPrior : Bool)
    (drawsRow : List (List Nat)) (flatDraws : List Nat) (bsz : Nat) :
    List (List Nat) :=
  let K := nNegativesFor cfg training
  if hasPrior then transposeMat drawsRow K else reshapeMat flatDraws K bsz

lemma le_foldl_max (xs : List Int) : ∀ a : Int, a ≤ xs.foldl max a := by
  induction xs with
  | nil => intro a; exact le_refl a
  | cons y ys ih =>
    intro a
    exact le_trans (le_max_left a y) (ih (max a y))

lemma mem_le_foldl_max {k : Int} : ∀ (xs : List Int) (a : Int), k ∈ xs → k ≤ xs.foldl max a := by
  intro xs
  induction xs with
  | nil => intro a h; cases h
  | cons y ys ih =>
    intro a h
    rcases List.mem_cons.mp h with h1 | h2
    · subst h1
      exact le_trans (le_max_right a k) (le_foldl_max ys (max a k))
    · exact ih (max a y) h2

lemma le_listMax {k : Int} {l : List Int} (h : k ∈ l) : k ≤ listMax l := by
  cases l with
  | nil => cases h
  | cons x xs =>
    rcases List.mem_cons.mp h with h1 | h2
    · subst h1; exact le_foldl_max xs k
    · exact mem_le_foldl_max xs x h2

lemma foldl_max_of_forall_le {a : Int} : ∀ {xs : List Int}, (∀ y ∈ xs, y ≤ a) → xs.foldl max a = a := by
  intro xs
  induction xs with
  | nil => intro _; rfl
  | cons y ys ih =>
    intro h
    have hy : y ≤ a := h y (List.mem_cons_self y ys)
    have : max a y = a := max_eq_left hy
    rw [List.foldl_cons, this]
    exact ih (fun z hz => h z (List.mem_cons_of_mem y hz))

lemma foldl_max_mem : ∀ (xs : List Int) (a : Int), xs.foldl max a = a ∨ xs.foldl max a ∈ xs := by
  intro xs
  induction xs with
  | nil => intro a; exact Or.inl rfl
  | cons y ys ih =>
    intro a
    rcases ih (max a y) with h | h
    · rcases max_choice a y with hc | hc
      · rw [List.foldl_cons, h, hc]; exact Or.inl rfl
      · rw [List.foldl_cons, h, hc]; exact Or.inr (List.mem_cons_self y ys)
    · exact Or.inr (List.mem_cons_of_mem y h)

lemma listMax_mem : ∀ {l : List Int}, l ≠ [] → listMax l ∈ l := by
  intro l h
  cases l with
  | nil => exact absurd rfl h
  | cons x xs =>
    rcases foldl_max_mem xs x with h1 | h1
    · rw [listMax, h1]; exact List.mem_cons_self x xs
    · rw [listMax]; exact List.mem_cons_of_mem x h1

/-- Every already-recorded key is strictly below the next step index. -/
lemma key_lt_getStepIdx {st : EnvState} {k : Int} (h : k ∈ st.responseKeys) :
    k < getStepIdx st := by
  rcases st with ⟨s, keys⟩
  cases keys with
  | nil => cases h
  | cons x xs =>
    have h1 : k ≤ listMax (x :: xs) := le_listMax h
    have h2 : getStepIdx ⟨s, x :: xs⟩ = listMax (x :: xs) + 1 := rfl
    rw [h2]
    exact lt_of_le_of_lt h1 (lt_add_one _)

/-- Stepping advances the next step index by exactly one. -/
lemma getStepIdx_stepRecord (st : EnvState) : getStepIdx (stepRecord st) = getStepIdx st + 1 := by
  rcases st with ⟨s, keys⟩
  cases keys with
  | nil => simp [stepRecord, getStepIdx, Env._get_step_idx, listMax]
  | cons x xs =>
    have hle : ∀ y ∈ x :: xs, y ≤ listMax (x :: xs) := fun y hy => le_listMax hy
    have hmax : listMax ((listMax (x :: xs) + 1) :: x :: xs) = listMax (x :: xs) + 1 := by
      rw [listMax]
      exact foldl_max_of_forall_le (fun y hy => le_trans (hle y hy) (le_of_lt (lt_add_one _)))
    simp only [stepRecord, getStepIdx, Env._get_step_idx]
    rw [hmax]

/-- Any event surviving sanitization came from the input table. -/
lemma sanitize_mem {event_df : List RawEvent} {user_df : List (Nat × ℚ)}
    {item_df : List Nat} {cf : Option Bool} {now : ℚ} {out : List RawEvent × Bool}
    (h : _sanitize_inputs event_df user_df item_df cf now = .ok out) :
    ∀ e ∈ out.1, e ∈ event_df := by
  intro e he
  unfold _sanitize_inputs at h
  split at h
  · cases h
  · split at h
    · cases h
    · split at h
      · split at h
        · cases h; exact List.mem_of_mem_filter he
        · cases h; exact List.mem_of_mem_filter (List.mem_of_mem_filter he)
        · cases h; exact List.mem_of_mem_filter he
      · cases h; exact List.mem_of_mem_filter he

lemma takeIndex_range {α : Type} (l : List α) (d : α) :
    takeIndex l d (List.range l.length) = l := by
  apply List.ext_getElem
  · simp [takeIndex]
  · intro n h1 h2
    simp only [takeIndex, List.getElem_map, List.getElem_range]
    exact List.getD_eq_getElem l d h2

lemma takeIndex_perm {α : Type} {l : List α} {d : α} {idx : List Nat}
    (h : idx.Perm (List.range l.length)) : (takeIndex l d idx).Perm l := by
  have h2 : (takeIndex l d idx).Perm (takeIndex l d (List.range l.length)) :=
    List.Perm.map _ h
  rwa [takeIndex_range] at h2

lemma idxLe_trans (g : List Int) : ∀ a b c, idxLe g a b → idxLe g b c → idxLe g a c := by
  intro a b c h1 h2
  simp only [idxLe, Bool.or_eq_true, Bool.and_eq_true, decide_eq_true_eq, beq_iff_eq] at h1 h2 ⊢
  rcases h1 with h1 | ⟨h1e, h1i⟩ <;> rcases h2 with h2 | ⟨h2e, h2i⟩
  · exact Or.inl (lt_trans h1 h2)
  · exact Or.inl (h2e ▸ h1)
  · exact Or.inl (h1e ▸ h2)
  · exact Or.inr ⟨h1e.trans h2e, le_trans h1i h2i⟩

lemma idxLe_total (g : List Int) : ∀ a b, idxLe g a b || idxLe g b a := by
  intro a b
  simp only [idxLe, Bool.or_eq_true, Bool.and_eq_true, decide_eq_true_eq, beq_iff_eq]
  rcases lt_trichotomy (g.getD a 0) (g.getD b 0) with h | h | h
  · exact Or.inl (Or.inl h)
  · rcases Nat.le_total a b with hi | hi
    · exact Or.inl (Or.inr ⟨h, hi⟩)
    · exact Or.inr (Or.inr ⟨h.symm, hi⟩)
  · exact Or.inr (Or.inl h)

lemma tagLabelSum_append {g1 g2 : List Int} {a1 a2 : List ℚ} (h : g1.length = a1.length)
    (t : Int) :
    tagLabelSum (a1 ++ a2) (g1 ++ g2) t = tagLabelSum a1 g1 t + tagLabelSum a2 g2 t := by
  unfold tagLabelSum
  rw [List.zip_append h, List.filter_append, List.map_append, List.sum_append]

lemma tagCount_append (g1 g2 : List Int) (t : Int) :
    tagCount (g1 ++ g2) t = tagCount g1 t + tagCount g2 t := by
  unfold tagCount
  rw [List.filter_append, List.length_append]

/-- Row-wise masked sums agree with the flattened reading when shapes match. -/
lemma maskSum_eq_tagLabelSum (t : Int) :
    ∀ (L : List (List ℚ)) (G : List (List Int)),
      L.map List.length = G.map List.length →
      maskSum L G t = tagLabelSum L.flatten G.flatten t := by
  intro L
  induction L with
  | nil =>
    intro G h
    cases G with
    | nil => simp [maskSum, tagLabelSum]
    | cons g gs => simp at h
  | cons a as ih =>
    intro G h
    cases G with
    | nil => simp at h
    | cons g gs =>
      simp only [List.map_cons, List.cons.injEq] at h
      have hlen : g.length = a.length := h.1.symm
      have hrec := ih gs h.2
      simp only [maskSum, List.zip_cons_cons, List.map_cons, List.sum_cons] at *
      rw [List.flatten_cons, List.flatten_cons, tagLabelSum_append hlen]
      rw [← hrec]
      rfl

/-- Row-wise masked counts agree with the flattened reading. -/
lemma maskCount_eq_tagCount (t : Int) :
    ∀ (G : List (List Int)), maskCount G t = tagCount G.flatten t := by
  intro G
  induction G with
  | nil => simp [maskCount, tagCount]
  | cons g gs ih =>
    simp only [maskCount, List.map_cons, List.sum_cons] at *
    rw [List.flatten_cons, tagCount_append]
    rw [← ih]
    rfl

lemma flatMap_congr {α β : Type} {l : List α} {f g : α → List β}
    (h : ∀ a ∈ l, f a = g a) : l.flatMap f = l.flatMap g := by
  induction l with
  | nil => rfl
  | cons x xs ih =>
    rw [List.flatMap_cons, List.flatMap_cons, h x (List.mem_cons_self x xs),
      ih (fun a ha => h a (List.mem_cons_of_mem x ha))]

lemma zip_flatMap {α β γ : Type} {l : List α} {f : α → List β} {g : α → List γ}
    (h : ∀ a ∈ l, (f a).length = (g a).length) :
    (l.flatMap f).zip (l.flatMap g) = l.flatMap (fun a => (f a).zip (g a)) := by
  induction l with
  | nil => rfl
  | cons x xs ih =>
    rw [List.flatMap_cons, List.flatMap_cons, List.flatMap_cons,
      List.zip_append (h x (List.mem_cons_self x xs)),
      ih (fun a ha => h a (List.mem_cons_of_mem x ha))]

lemma zip_replicate_self {α β : Type} (l : List α) (b : β) :
    l.zip (List.replicate l.length b) = l.map (fun a => (a, b)) := by
  induction l with
  | nil => rfl
  | cons x xs ih =>
    rw [List.length_cons, List.replicate_succ, List.zip_cons_cons, List.map_cons, ih]

lemma any_flatMap {α β : Type} (l : List α) (f : α → List β) (p : β → Bool) :
    (l.flatMap f).any p = l.any (fun a => (f a).any p) := by
  induction l with
  | nil => rfl
  | cons x xs ih => rw [List.flatMap_cons, List.any_append, List.any_cons, ih]

lemma any_of_forall_eq {α : Type} {l : List α} {p : α → Bool} {c : Bool}
    (hne : l ≠ []) (h : ∀ x ∈ l, p x = c) : l.any p = c := by
  cases l with
  | nil => exact absurd rfl hne
  | cons x xs =>
    cases c with
    | true => simp [List.any_cons, h x (List.mem_cons_self x xs)]
    | false =>
      rw [List.any_eq_false]
      intro y hy
      rw [h y hy]
      exact Bool.false_ne_true

/-- Every raw exploded event carries the request_time of some response row. -/
lemma parseEventsRaw_ts {rows : List RespRow} {steps : List Int} {e : NewEvent}
    (h : e ∈ parseEventsRaw rows steps) : ∃ r ∈ rows, e.ts = r.request_time := by
  unfold parseEventsRaw at h
  rcases List.mem_map.mp h with ⟨bvg, hmem, rfl⟩
  have hb := (List.of_mem_zip hmem).1
  rcases List.mem_flatMap.mp hb with ⟨rs, hrs, hb2⟩
  rcases List.mem_map.mp hb2 with ⟨it, hit, heq⟩
  refine ⟨rs.1, (List.of_mem_zip hrs).1, ?_⟩
  show bvg.1.2.2.1 = rs.1.request_time
  rw [← heq]

/-- With nonempty candidate lists and parallel columns, the code's columnwise
explode-and-realign equals the spec's one-event-per-pair construction. -/
lemma parseEventsRaw_eq_eventsPerPair (rows : List RespRow) (i : Int)
    (hne : ∀ r ∈ rows, r.cand_items ≠ [])
    (hl1 : ∀ r ∈ rows, r.multi_label.length = r.cand_items.length)
    (hl2 : ∀ r ∈ rows, r.group.length = r.cand_items.length) :
    parseEventsRaw rows (List.replicate rows.length i) = eventsPerPair rows i := by
  have hexp : ∀ r ∈ rows, explodeCell r.cand_items = r.cand_items.map some := by
    intro r hr
    rw [explodeCell, if_neg]
    simp [hne r hr]
  have hexp1 : ∀ r ∈ rows, explodeCell r.multi_label = r.multi_label.map some := by
    intro r hr
    rw [explodeCell, if_neg]
    have hx : r.multi_label ≠ [] := by
      intro hc
      have hy := hl1 r hr
      rw [hc] at hy
      exact hne r hr (List.eq_nil_of_length_eq_zero hy.symm)
    simp [hx]
  have hexp2 : ∀ r ∈ rows, explodeCell r.group = r.group.map some := by
    intro r hr
    rw [explodeCell, if_neg]
    have hx : r.group ≠ [] := by
      intro hc
      have hy := hl2 r hr
      rw [hc] at hy
      exact hne r hr (List.eq_nil_of_length_eq_zero hy.symm)
    simp [hx]
  have hbaseEq : ((rows.zip (List.replicate rows.length i)).flatMap (fun rs =>
        (explodeCell rs.1.cand_items).map (fun it => (it, rs.1.user, rs.1.request_time, rs.2))))
      = rows.flatMap (fun r => r.cand_items.map
          (fun c => ((some c : Option Nat), r.user, r.request_time, i))) := by
    rw [zip_replicate_self, List.flatMap_map]
    apply flatMap_congr
    intro r hr
    dsimp only
    rw [hexp r hr, List.map_map]
    rfl
  have hvgEq : ((rows.flatMap (fun r => explodeCell r.multi_label)).zip
        (rows.flatMap (fun r => explodeCell r.group)))
      = rows.flatMap (fun r => (r.multi_label.zip r.group).map
          (fun p => ((some p.1 : Option ℚ), (some p.2 : Option Int)))) := by
    rw [zip_flatMap (fun r hr => by
      rw [hexp1 r hr, hexp2 r hr, List.length_map, List.length_map, hl1 r hr, hl2 r hr])]
    apply flatMap_congr
    intro r hr
    rw [hexp1 r hr, hexp2 r hr, List.zip_map]
    apply List.map_congr_left
    intro p _
    rfl
  have hfinalLen : ∀ r ∈ rows, (r.cand_items.map
        (fun c => ((some c : Option Nat), r.user, r.request_time, i))).length
      = ((r.multi_label.zip r.group).map
        (fun p => ((some p.1 : Option ℚ), (some p.2 : Option Int)))).length := by
    intro r hr
    rw [List.length_map, List.length_map, List.length_zip, hl1 r hr, hl2 r hr, min_self]
  simp only [parseEventsRaw]
  rw [hbaseEq, hvgEq, zip_flatMap hfinalLen, List.map_flatMap]
  unfold eventsPerPair
  apply flatMap_congr
  intro r hr
  rw [List.zip_map, List.map_map]
  apply List.map_congr_left
  intro p _
  rcases p with ⟨c, v, g⟩
  rfl

lemma any_congr {α : Type} {l : List α} {p q : α → Bool} (h : ∀ a ∈ l, p a = q a) :
    l.any p = l.any q := by
  induction l with
  | nil => rfl
  | cons x xs ih =>
    rw [List.any_cons, List.any_cons, h x (List.mem_cons_self x xs),
      ih (fun a ha => h a (List.mem_cons_of_mem x ha))]

/-- The fixup trigger over the exploded events equals the same trigger over the
response rows, since every row explodes to at least one event sharing its
request_time. -/
lemma eventsPerPair_any (rows : List RespRow) (i : Int) (now : ℚ)
    (hne : ∀ r ∈ rows, r.cand_items ≠ [])
    (hl1 : ∀ r ∈ rows, r.multi_label.length = r.cand_items.length)
    (hl2 : ∀ r ∈ rows, r.group.length = r.cand_items.length) :
    (eventsPerPair rows i).any (fun e => decide (now < e.ts))
      = rows.any (fun r => decide (now < r.request_time)) := by
  unfold eventsPerPair
  rw [any_flatMap]
  apply any_congr
  intro r hr
  apply any_of_forall_eq
  · intro hc
    rw [List.map_eq_nil_iff] at hc
    have hlen := congrArg List.length hc
    rw [List.length_zip, List.length_zip, hl1 r hr, hl2 r hr, min_self, min_self] at hlen
    exact hne r hr (List.eq_nil_of_length_eq_zero hlen)
  · intro x hx
    rcases List.mem_map.mp hx with ⟨p, hp, rfl⟩
    rfl

/-- C1: the base Env._invoke never raises: its body is a plain return of the
NotImplementedError object, so every call completes normally carrying the
exception object as a value, contradicting the spec's fatal-by-design raise. -/
theorem invoke_base_returns_exception_object {Req Dat : Type}
    (request : Req) (D : Dat) (step_idx : Int) :
    Env._invoke request D step_idx
      = PyOutcome.ret (PyObj.exc "NotImplementedError" "return request + multi_label column") ∧
    ∀ n m, Env._invoke request D step_idx ≠ PyOutcome.raised n m :=
  ⟨rfl, fun n m h => PyOutcome.noConfusion h⟩

/-- C3 (counterexample): an Env built with _start_step_idx = 5 and no recorded
responses has next step index 5, not 0 as the claim states. -/
theorem get_step_idx_not_always_zero :
    getStepIdx ⟨5, []⟩ ≠ 0 := by decide

/-- C3 (amended): with no recorded responses the next step index equals the
_start_step_idx field (whose dataclass default is 0); otherwise it is one plus
the maximum previously recorded step index. -/
theorem get_step_idx_spec (st : EnvState) :
    (st.responseKeys = [] → getStepIdx st = st.startStepIdx) ∧
    (st.responseKeys ≠ [] →
      (∀ k ∈ st.responseKeys, k < getStepIdx st) ∧
      ∃ k ∈ st.responseKeys, getStepIdx st = k + 1) := by
  rcases st with ⟨s, keys⟩
  constructor
  · intro h
    simp only at h
    subst h
    rfl
  · intro h
    simp only at h
    constructor
    · intro k hk
      exact key_lt_getStepIdx hk
    · refine ⟨listMax keys, listMax_mem h, ?_⟩
      cases keys with
      | nil => exact absurd rfl h
      | cons x xs => rfl

/-- C3 (witness for the amended claim at a concrete state). -/
theorem get_step_idx_spec_witness :
    (∀ k ∈ [(3 : Int), 1], k < getStepIdx ⟨0, [3, 1]⟩) ∧
    ∃ k ∈ [(3 : Int), 1], getStepIdx ⟨0, [3, 1]⟩ = k + 1 :=
  (get_step_idx_spec ⟨0, [3, 1]⟩).2 (by decide)

/-- C9: starting from any state, N consecutive step() calls record exactly the
indices start, start+1, ..., start+N-1 (with start the next step index of the
initial state), each strictly greater than every previously recorded index. -/
theorem step_indices_are_consecutive (st : EnvState) (N : Nat) :
    (runSteps st N).responseKeys =
      ((List.range N).map (fun k : Nat => getStepIdx st + (k : Int))).reverse ++ st.responseKeys ∧
    ∀ a ∈ (List.range N).map (fun k : Nat => getStepIdx st + (k : Int)),
      ∀ b ∈ st.responseKeys, b < a := by
  constructor
  · induction N generalizing st with
    | zero => simp [runSteps]
    | succ n ih =>
      have hstep : runSteps st (n + 1) = runSteps (stepRecord st) n := rfl
      have hkeys : (stepRecord st).responseKeys = getStepIdx st :: st.responseKeys := rfl
      have hmap : (List.range n).map ((fun k : Nat => getStepIdx st + (k : Int)) ∘ Nat.succ)
          = (List.range n).map (fun k : Nat => getStepIdx (stepRecord st) + (k : Int)) := by
        apply List.map_congr_left
        intro k _
        simp only [Function.comp_apply, getStepIdx_stepRecord]
        push_cast
        ring
      rw [hstep, ih (stepRecord st), hkeys, List.range_succ_eq_map, List.map_cons,
        List.map_map, hmap]
      simp only [Nat.cast_zero, add_zero, List.reverse_cons, List.append_assoc,
        List.singleton_append]
  · intro a ha b hb
    rcases List.mem_map.mp ha with ⟨k, _, rfl⟩
    have h1 : b < getStepIdx st := key_lt_getStepIdx hb
    have h2 : (0 : Int) ≤ (k : Int) := Int.natCast_nonneg k
    omega

/-- C10: when the incoming event table has no VALUE column, every row of the
sanitized event log carries VALUE = 1. -/
theorem sanitize_no_value_defaults_to_one
    (event_df : List RawEventNoValue) (user_df : List (Nat × ℚ)) (item_df : List Nat)
    (clear_future_events : Option Bool) (now : ℚ) (out : List RawEvent × Bool)
    (h : sanitizeNoValue event_df user_df item_df clear_future_events now = .ok out) :
    ∀ e ∈ out.1, e.value = 1 := by
  intro e he
  have hsrc := sanitize_mem h e he
  rcases List.mem_map.mp hsrc with ⟨r, _, rfl⟩
  rfl

/-- C10 (witness): a concrete no-VALUE event table sanitizes successfully and
its surviving row carries VALUE = 1. -/
theorem sanitize_no_value_witness :
    sanitizeNoValue [⟨1, 5, 0⟩] [(1, 10)] [5] none 100 = .ok ([⟨1, 5, 0, 1⟩], false) ∧
    (⟨1, 5, 0, 1⟩ : RawEvent).value = 1 :=
  ⟨by rfl, sanitize_no_value_defaults_to_one [⟨1, 5, 0⟩] [(1, 10)] [5] none 100
    ([⟨1, 5, 0, 1⟩], false) (by rfl) ⟨1, 5, 0, 1⟩ (by simp)⟩

/-- C5: for one known user with one event before TEST_START_TIME and one at or
after it, clear_future_events=True sanitizes to just the past event (length 1);
=False keeps both (length 2) with no warning; the default None keeps both and
emits the future-event warning. -/
theorem sanitize_future_event_policy
    (u item : Nat) (tst t1 t2 now v1 v2 : ℚ)
    (h1 : t1 < tst) (h2 : tst ≤ t2) (h3 : t1 < now) (h4 : t2 < now) :
    _sanitize_inputs [⟨u, item, t1, v1⟩, ⟨u, item, t2, v2⟩] [(u, tst)] [item]
        (some true) now = .ok ([⟨u, item, t1, v1⟩], false) ∧
    _sanitize_inputs [⟨u, item, t1, v1⟩, ⟨u, item, t2, v2⟩] [(u, tst)] [item]
        (some false) now = .ok ([⟨u, item, t1, v1⟩, ⟨u, item, t2, v2⟩], false) ∧
    _sanitize_inputs [⟨u, item, t1, v1⟩, ⟨u, item, t2, v2⟩] [(u, tst)] [item]
        none now = .ok ([⟨u, item, t1, v1⟩, ⟨u, item, t2, v2⟩], true) := by
  have hkn : knownEvents [⟨u, item, t1, v1⟩, ⟨u, item, t2, v2⟩] [(u, tst)] [item]
      = [⟨u, item, t1, v1⟩, ⟨u, item, t2, v2⟩] := by
    simp [knownEvents]
  have hlk : lookupTST [(u, tst)] u = some tst := by simp [lookupTST]
  have hp : pastEvents [⟨u, item, t1, v1⟩, ⟨u, item, t2, v2⟩] [(u, tst)] [item]
      = [⟨u, item, t1, v1⟩] := by
    rw [pastEvents, hkn]
    simp [List.filter, hlk, h1, not_lt.mpr h2]
  have hnodup : (([(u, tst)] : List (Nat × ℚ)).map Prod.fst).Nodup := by simp
  have hts : ([⟨u, item, t1, v1⟩, ⟨u, item, t2, v2⟩] : List RawEvent) ≠ [] ∧
      ∀ e ∈ ([⟨u, item, t1, v1⟩, ⟨u, item, t2, v2⟩] : List RawEvent), e.ts < now := by
    refine ⟨by simp, ?_⟩
    intro e he
    rcases List.mem_cons.mp he with rfl | he2
    · exact h3
    · rcases List.mem_cons.mp he2 with rfl | he3
      · exact h4
      · cases he3
  refine ⟨?_, ?_, ?_⟩ <;>
    rw [_sanitize_inputs, if_neg (not_not_intro hnodup), if_neg (not_not_intro hts),
      hkn, hp] <;>
    simp

/-- C5 (witness at concrete timestamps and values). -/
theorem sanitize_future_event_policy_witness :
    _sanitize_inputs [⟨1, 7, 5, 0⟩, ⟨1, 7, 10, 1⟩] [(1, 10)] [7] (some true) 100
      = .ok ([⟨1, 7, 5, 0⟩], false) ∧
    _sanitize_inputs [⟨1, 7, 5, 0⟩, ⟨1, 7, 10, 1⟩] [(1, 10)] [7] (some false) 100
      = .ok ([⟨1, 7, 5, 0⟩, ⟨1, 7, 10, 1⟩], false) ∧
    _sanitize_inputs [⟨1, 7, 5, 0⟩, ⟨1, 7, 10, 1⟩] [(1, 10)] [7] none 100
      = .ok ([⟨1, 7, 5, 0⟩, ⟨1, 7, 10, 1⟩], true) :=
  sanitize_future_event_policy 1 7 10 5 10 100 0 1 (by norm_num) (by norm_num)
    (by norm_num) (by norm_num)

/-- C2 (counterexample): on a request row whose group tags include the
reserved -1, the sorted branch of _sort_or_shuffle indexes with the argsort of
the masked array and returns shorter lists, so the output candidate list is
not a permutation of the input candidate list. -/
theorem sort_or_shuffle_not_permutation :
    ((_sort_or_shuffle true [] ⟨[10, 20], [0, -1], ["a", "b"]⟩).cand_items).length
      ≠ ([10, 20] : List Nat).length := by
  have hf : (([0, -1] : List Int).filter (fun x => x != -1)) = [0] := by decide
  have ha : argsortStable [0] = [0] := by
    have h1 : List.range 1 = [0] := rfl
    simp [argsortStable, h1, List.mergeSort_singleton]
  simp [_sort_or_shuffle, hf, ha, takeIndex]

/-- C2 (amended): on rows whose group tags avoid the reserved -1 (the sorted
branch; the shuffle branch needs no such restriction but is stated under the
same roof), all three columns are permuted in lockstep by one index list that
is a permutation of all positions; in the sorted branch the resulting group
tags are ascending and equal tags keep their original relative order. -/
theorem sort_or_shuffle_spec (r : ReqRow) (perm : List Nat) (b : Bool)
    (hlen1 : r.cand_items.length = r.group.length)
    (hlen2 : r.cand_titles.length = r.group.length)
    (hno : b = true → (-1 : Int) ∉ r.group)
    (hperm : b = false → perm.Perm (List.range r.group.length)) :
    ∃ idx : List Nat, idx.Perm (List.range r.group.length) ∧
      _sort_or_shuffle b perm r =
        ⟨takeIndex r.cand_items 0 idx, takeIndex r.group 0 idx,
          takeIndex r.cand_titles "" idx⟩ ∧
      (_sort_or_shuffle b perm r).cand_items.Perm r.cand_items ∧
      (_sort_or_shuffle b perm r).group.Perm r.group ∧
      (_sort_or_shuffle b perm r).cand_titles.Perm r.cand_titles ∧
      (b = true → (_sort_or_shuffle b perm r).group.Sorted (· ≤ ·) ∧
        idx.Pairwise (fun i j => r.group.getD i 0 = r.group.getD j 0 → i ≤ j)) := by
  cases b with
  | false =>
    refine ⟨perm, hperm rfl, ?_, ?_, ?_, ?_, ?_⟩
    · rfl
    · exact takeIndex_perm ((hlen1 ▸ hperm rfl : perm.Perm (List.range r.cand_items.length)))
    · exact takeIndex_perm (hperm rfl)
    · exact takeIndex_perm ((hlen2 ▸ hperm rfl : perm.Perm (List.range r.cand_titles.length)))
    · intro h; cases h
  | true =>
    have hfilter : r.group.filter (fun x => x != -1) = r.group := by
      rw [List.filter_eq_self]
      intro a ha
      exact bne_iff_ne.mpr (fun hc => (hno rfl) (hc ▸ ha))
    have hidx : argsortStable (r.group.filter (fun x => x != -1))
        = argsortStable r.group := by rw [hfilter]
    have hpr : (argsortStable r.group).Perm (List.range r.group.length) :=
      List.mergeSort_perm _ _
    have hout : _sort_or_shuffle true perm r =
        ⟨takeIndex r.cand_items 0 (argsortStable r.group),
          takeIndex r.group 0 (argsortStable r.group),
          takeIndex r.cand_titles "" (argsortStable r.group)⟩ := by
      simp only [_sort_or_shuffle, if_pos, hidx]
    have hsorted : (argsortStable r.group).Pairwise (fun i j => idxLe r.group i j = true) :=
      List.sorted_mergeSort (idxLe_trans r.group) (idxLe_total r.group) _
    refine ⟨argsortStable r.group, hpr, hout, ?_, ?_, ?_, ?_⟩
    · rw [hout]
      exact takeIndex_perm (hlen1 ▸ hpr)
    · rw [hout]
      exact takeIndex_perm hpr
    · rw [hout]
      exact takeIndex_perm (hlen2 ▸ hpr)
    · intro _
      constructor
      · rw [hout]
        apply List.Pairwise.map
          (S := fun a b : Int => a ≤ b)
          (f := fun i => r.group.getD i 0) ?_ hsorted
        intro i j hij
        simp only [idxLe, Bool.or_eq_true, Bool.and_eq_true, decide_eq_true_eq,
          beq_iff_eq] at hij
        rcases hij with h | ⟨he, _⟩
        · exact le_of_lt h
        · exact le_of_eq he
      · apply List.Pairwise.imp ?_ hsorted
        intro i j hij he
        simp only [idxLe, Bool.or_eq_true, Bool.and_eq_true, decide_eq_true_eq,
          beq_iff_eq] at hij
        rcases hij with h | ⟨_, hi⟩
        · exact absurd he (ne_of_lt h)
        · exact hi

/-- C2 (witness for the amended claim at a concrete row, sorted branch). -/
theorem sort_or_shuffle_spec_witness :
    ∃ idx : List Nat, idx.Perm (List.range 3) ∧
      _sort_or_shuffle true [] ⟨[10, 20, 30], [1, 0, 1], ["a", "b", "c"]⟩ =
        ⟨takeIndex [10, 20, 30] 0 idx, takeIndex [1, 0, 1] 0 idx,
          takeIndex ["a", "b", "c"] "" idx⟩ ∧
      (_sort_or_shuffle true [] ⟨[10, 20, 30], [1, 0, 1], ["a", "b", "c"]⟩).cand_items.Perm
        [10, 20, 30] ∧
      (_sort_or_shuffle true [] ⟨[10, 20, 30], [1, 0, 1], ["a", "b", "c"]⟩).group.Perm
        [1, 0, 1] ∧
      (_sort_or_shuffle true [] ⟨[10, 20, 30], [1, 0, 1], ["a", "b", "c"]⟩).cand_titles.Perm
        ["a", "b", "c"] ∧
      (true = true →
        (_sort_or_shuffle true [] ⟨[10, 20, 30], [1, 0, 1], ["a", "b", "c"]⟩).group.Sorted
          (· ≤ ·) ∧
        idx.Pairwise (fun i j => ([1, 0, 1] : List Int).getD i 0 = ([1, 0, 1] : List Int).getD j 0
          → i ≤ j)) :=
  sort_or_shuffle_spec ⟨[10, 20, 30], [1, 0, 1], ["a", "b", "c"]⟩ [] true
    (by decide) (by decide) (fun _ => by decide) (fun h => by cases h)

/-- C4: _evaluate_response yields one entry per distinct group tag, keyed by
the string form of the tag, with value  sum of labels at the tag's positions
divided by the count of those positions; at the spec's concrete example it
returns the mapping 0 to 1/3 and 1 to 2/3. -/
theorem evaluate_response_spec (L : List (List ℚ)) (G : List (List Int))
    (hshape : L.map List.length = G.map List.length) :
    (_evaluate_response L G).map Prod.fst = (npUnique G.flatten).map toString ∧
    (∀ t ∈ npUnique G.flatten,
      (toString t, tagLabelSum L.flatten G.flatten t / (tagCount G.flatten t : ℚ))
        ∈ _evaluate_response L G) ∧
    _evaluate_response [[1, 0, 1], [0, 0, 1]] [[0, 0, 1], [0, 1, 1]]
      = [("0", 1 / 3), ("1", 2 / 3)] := by
  refine ⟨?_, ?_, ?_⟩
  · rw [_evaluate_response, List.map_map]
    rfl
  · intro t ht
    rw [_evaluate_response]
    rw [← maskSum_eq_tagLabelSum t L G hshape, ← maskCount_eq_tagCount t G]
    exact List.mem_map_of_mem _ ht
  · have hu : npUnique ([[0, 0, 1], [0, 1, 1]] : List (List Int)).flatten = [0, 1] := by
      decide
    have hs0 : toString (0 : Int) = "0" := rfl
    have hs1 : toString (1 : Int) = "1" := rfl
    simp only [_evaluate_response, hu, List.map_cons, List.map_nil, hs0, hs1,
      List.cons.injEq, Prod.mk.injEq, and_true, true_and]
    norm_num [maskSum, maskCount]

/-- C4 (witness): the literal arithmetic of the spec's reward example. -/
theorem evaluate_response_spec_witness :
    _evaluate_response [[1, 0, 1], [0, 0, 1]] [[0, 0, 1], [0, 1, 1]]
      = [("0", 1 / 3), ("1", 2 / 3)] :=
  (evaluate_response_spec [[1, 0, 1], [0, 0, 1]] [[0, 0, 1], [0, 1, 1]] (by decide)).2.2

/-- C6: with an explicit step_idx, parse_response produces exactly one event
per (response row, candidate) pair, carrying the candidate as ITEM_ID, the
same-position label as VALUE, the same-position tag as _group, and the row's
request_time as the shared TIMESTAMP; when any resulting timestamp exceeds the
wall clock every timestamp is divided by 1000. -/
theorem parse_response_explodes_per_pair (rows : List RespRow) (i : Int) (now : ℚ)
    (hne : ∀ r ∈ rows, r.cand_items ≠ [])
    (hl1 : ∀ r ∈ rows, r.multi_label.length = r.cand_items.length)
    (hl2 : ∀ r ∈ rows, r.group.length = r.cand_items.length) :
    parse_response rows (some i) now =
      (if rows.any (fun r => decide (now < r.request_time))
        then (eventsPerPair rows i).map scaleTs
        else eventsPerPair rows i) ∧
    (eventsPerPair rows i).length = (rows.map (fun r => r.cand_items.length)).sum := by
  constructor
  · simp only [parse_response]
    rw [parseEventsRaw_eq_eventsPerPair rows i hne hl1 hl2,
      eventsPerPair_any rows i now hne hl1 hl2]
  · unfold eventsPerPair
    rw [List.length_flatMap]
    congr 1
    apply List.map_congr_left
    intro r hr
    simp only [Function.comp_apply, List.length_map, List.length_zip,
      hl1 r hr, hl2 r hr, min_self]

/-- C6 (witness at a concrete two-candidate response row). -/
theorem parse_response_explodes_per_pair_witness :
    parse_response [⟨0, 5, [1, 2], [1, 0], [0, 1]⟩] (some 3) 10 =
      (if ([⟨0, 5, [1, 2], [1, 0], [0, 1]⟩] : List RespRow).any
          (fun r => decide ((10 : ℚ) < r.request_time))
        then (eventsPerPair [⟨0, 5, [1, 2], [1, 0], [0, 1]⟩] 3).map scaleTs
        else eventsPerPair [⟨0, 5, [1, 2], [1, 0], [0, 1]⟩] 3) ∧
    (eventsPerPair [⟨0, 5, [1, 2], [1, 0], [0, 1]⟩] 3).length =
      (([⟨0, 5, [1, 2], [1, 0], [0, 1]⟩] : List RespRow).map
        (fun r => r.cand_items.length)).sum :=
  parse_response_explodes_per_pair [⟨0, 5, [1, 2], [1, 0], [0, 1]⟩] 3 10
    (by decide) (by decide) (by decide)

/-- C7 (counterexample): parse_response reads the wall clock inside its
time-unit fixup, so the same response with the same explicit step_idx parses
to different event tables at two different clock readings that straddle the
response timestamp. -/
theorem parse_response_not_clock_independent :
    parse_response [⟨0, 2000, [1], [1], [0]⟩] (some 0) 1000
      ≠ parse_response [⟨0, 2000, [1], [1], [0]⟩] (some 0) 3000 := by
  intro hcon
  have hraw : parseEventsRaw [⟨0, 2000, [1], [1], [0]⟩] (List.replicate 1 0)
      = [⟨some 1, 0, 2000, some 1, some 0, 0⟩] := by rfl
  have h1000 : parse_response [⟨0, 2000, [1], [1], [0]⟩] (some 0) 1000
      = [⟨some 1, 0, 2000 / 1000, some 1, some 0, 0⟩] := by
    simp only [parse_response, List.length_cons, List.length_nil, hraw]
    norm_num [scaleTs]
  have h3000 : parse_response [⟨0, 2000, [1], [1], [0]⟩] (some 0) 3000
      = [⟨some 1, 0, 2000, some 1, some 0, 0⟩] := by
    simp only [parse_response, List.length_cons, List.length_nil, hraw]
    norm_num
  rw [h1000, h3000] at hcon
  simp only [List.cons.injEq, NewEvent.mk.injEq, and_true, true_and] at hcon
  norm_num at hcon

/-- C7 (amended): parse_response is deterministic in the response, the
explicit step_idx and the wall-clock reading; in particular two calls agree
whenever no response timestamp exceeds the clock at either call, both with an
explicit step_idx and with step_idx inferred (None). -/
theorem parse_response_deterministic (rows : List RespRow) (i : Int) (now1 now2 : ℚ)
    (h1 : ∀ r ∈ rows, r.request_time ≤ now1)
    (h2 : ∀ r ∈ rows, r.request_time ≤ now2) :
    parse_response rows (some i) now1 = parse_response rows (some i) now2 ∧
    parse_response rows none now1 = parse_response rows none now2 := by
  have key : ∀ (steps : List Int) (now : ℚ), (∀ r ∈ rows, r.request_time ≤ now) →
      (parseEventsRaw rows steps).any (fun e => decide (now < e.ts)) = false := by
    intro steps now hn
    rw [List.any_eq_false]
    intro e he
    rcases parseEventsRaw_ts he with ⟨r, hr, hts⟩
    simp [hts, not_lt.mpr (hn r hr)]
  constructor
  · simp only [parse_response]
    rw [key _ _ h1, key _ _ h2]
  · simp only [parse_response]
    rw [key _ _ h1, key _ _ h2]

/-- C7 (witness for the amended claim at a concrete response and two clocks). -/
theorem parse_response_deterministic_witness :
    parse_response [⟨0, 5, [1], [1], [0]⟩] (some 0) 10
      = parse_response [⟨0, 5, [1], [1], [0]⟩] (some 0) 20 ∧
    parse_response [⟨0, 5, [1], [1], [0]⟩] none 10
      = parse_response [⟨0, 5, [1], [1], [0]⟩] none 20 :=
  parse_response_deterministic [⟨0, 5, [1], [1], [0]⟩] 0 10 20
    (by norm_num) (by norm_num)

/-- C8: in both sampling branches the negative-index tensor nj has shape
(K, B) with K = n_negatives during training and K = valid_n_negatives during
validation, and every entry is a position inside the proposal distribution
(strictly below the item count), assuming only the multinomial contract for
the oracle draws. -/
theorem negative_sample_shape (cfg : BprCfg) (training hasPrior : Bool)
    (nItems bsz : Nat) (drawsRow : List (List Nat)) (flatDraws : List Nat)
    (hrows : hasPrior = true → drawsRow.length = bsz ∧
      ∀ row ∈ drawsRow, multinomialSpec nItems (nNegativesFor cfg training) row)
    (hflat : hasPrior = false →
      multinomialSpec nItems (nNegativesFor cfg training * bsz) flatDraws) :
    (sampleNegatives cfg training hasPrior drawsRow flatDraws bsz).length
      = nNegativesFor cfg training ∧
    (∀ row ∈ sampleNegatives cfg training hasPrior drawsRow flatDraws bsz,
      row.length = bsz ∧ ∀ x ∈ row, x < nItems) ∧
    (training = true → nNegativesFor cfg training = cfg.n_negatives) ∧
    (training = false → nNegativesFor cfg training = cfg.valid_n_negatives) := by
  refine ⟨?_, ?_, fun ht => by rw [nNegativesFor, if_pos ht], fun hf => by
    rw [nNegativesFor, hf, if_neg Bool.false_ne_true]⟩
  · cases hasPrior with
    | true =>
      simp only [sampleNegatives, if_pos]
      rw [transposeMat, List.length_map, List.length_range]
    | false =>
      simp only [sampleNegatives, if_neg Bool.false_ne_true]
      rw [reshapeMat, List.length_map, List.length_range]
  · intro row hrow
    cases hasPrior with
    | true =>
      rcases hrows rfl with ⟨hlen, hspec⟩
      simp only [sampleNegatives, if_pos, transposeMat] at hrow
      rcases List.mem_map.mp hrow with ⟨c, hc, rfl⟩
      have hcK : c < nNegativesFor cfg training := List.mem_range.mp hc
      constructor
      · rw [List.length_map, hlen]
      · intro x hx
        rcases List.mem_map.mp hx with ⟨r, hr, rfl⟩
        have hrK : r.length = nNegativesFor cfg training := (hspec r hr).1
        have hcr : c < r.length := by rw [hrK]; exact hcK
        rw [List.getD_eq_getElem r 0 hcr]
        exact (hspec r hr).2 _ (List.getElem_mem hcr)
    | false =>
      rcases hflat rfl with ⟨hlen, hspec⟩
      simp only [sampleNegatives, if_neg Bool.false_ne_true, reshapeMat] at hrow
      rcases List.mem_map.mp hrow with ⟨r, hr, rfl⟩
      have hrK : r < nNegativesFor cfg training := List.mem_range.mp hr
      constructor
      · rw [List.length_take, List.length_drop, hlen]
        have h1 : 1 ≤ nNegativesFor cfg training - r := by omega
        have h2 : bsz ≤ (nNegativesFor cfg training - r) * bsz := by
          calc bsz = 1 * bsz := (one_mul bsz).symm
          _ ≤ (nNegativesFor cfg training - r) * bsz := Nat.mul_le_mul_right bsz h1
        rw [Nat.sub_mul] at h2
        exact min_eq_left h2
      · intro x hx
        exact hspec x (List.mem_of_mem_drop (List.mem_of_mem_take hx))

/-- C8 (witness at a concrete configuration, no-prior branch, training). -/
theorem negative_sample_shape_witness :
    (sampleNegatives ⟨2, 3⟩ true false [] [0, 1, 2, 3] 2).length
      = nNegativesFor ⟨2, 3⟩ true ∧
    (∀ row ∈ sampleNegatives ⟨2, 3⟩ true false [] [0, 1, 2, 3] 2,
      row.length = 2 ∧ ∀ x ∈ row, x < 5) ∧
    (true = true → nNegativesFor ⟨2, 3⟩ true = 2) ∧
    (true = false → nNegativesFor ⟨2, 3⟩ true = 3) :=
  negative_sample_shape ⟨2, 3⟩ true false 5 2 [] [0, 1, 2, 3]
    (fun h => absurd h (by decide)) (fun _ => ⟨by decide, by decide⟩)

end Ccrec
